import Mathlib

/-!
Verification of the reading-archive batch-ingestion pipeline.

This file gives a shallow embedding, in Lean 4, of the core of the
repository: the filename parser, slug generator, manifest store, skip
decision engine, oversized-file handler, retry orchestrator and batch
driver found in `scripts/batch_pdf_to_ppt.py` and
`scripts/process_pdf.py`, together with theorems settling the frozen
claims about them.

Strings are mostly modelled as `List Char`; file systems as functions
`String → Option String` (the content of each readable file); the
subprocess / AI-model collaborators as explicit parameters or effect
traces.  Python exceptions are modelled with `Except`.
-/

namespace ReadingArchive

/-! ### Generic list/string helpers used by the embeddings

`startsWithL needle hay` models Python's `hay.startswith(needle)`;
`containsSub needle hay` models Python's `needle in hay` (substring
containment); `replaceRuns p rep` models `re.sub(P+, rep, s)` where the
regex class `P` is described by the Boolean predicate `p` (each maximal
run of `p`-characters is replaced by the single character `rep`);
`stripEnds p` models `str.strip(chars)` for the character set `p`.
-/

def startsWithL : List Char → List Char → Bool
  | [], _ => true
  | _ :: _, [] => false
  | a :: as, b :: bs => a == b && startsWithL as bs

def containsSub (needle : List Char) : List Char → Bool
  | [] => startsWithL needle []
  | c :: rest => startsWithL needle (c :: rest) || containsSub needle rest

def replaceRunsGo (p : Char → Bool) (rep : Char) : Bool → List Char → List Char
  | _, [] => []
  | inRun, c :: rest =>
    if p c then
      if inRun then replaceRunsGo p rep true rest
      else rep :: replaceRunsGo p rep true rest
    else c :: replaceRunsGo p rep false rest

def replaceRuns (p : Char → Bool) (rep : Char) (l : List Char) : List Char :=
  replaceRunsGo p rep false l

def stripEnds (p : Char → Bool) (l : List Char) : List Char :=
  ((l.dropWhile p).reverse.dropWhile p).reverse

/-- True when the list has no character satisfying `p` in its first position. -/
def headNonP (p : Char → Bool) : List Char → Bool
  | [] => true
  | c :: _ => !p c

/-- True when the list has no character satisfying `p` in its last position. -/
def lastNonP (p : Char → Bool) : List Char → Bool
  | [] => true
  | [c] => !p c
  | _ :: c :: rest => lastNonP p (c :: rest)

/-- True when no two adjacent characters both satisfy `p`. -/
def noTwoAdjacent (p : Char → Bool) : List Char → Bool
  | [] => true
  | [_] => true
  | a :: b :: rest => (!(p a && p b)) && noTwoAdjacent p (b :: rest)

/-! ### Filename parser (`batch_pdf_to_ppt.normalize_segment` / `parse_title_author`) -/

/-- `DELIMITER = " -- "` from `batch_pdf_to_ppt.py`. -/
def DELIMITER : List Char := " -- ".toList

/-- The ASCII fragment of Python's regex class `\s`. -/
def pyWhitespace (c : Char) : Bool :=
  c == ' ' || c == '\t' || c == '\n' || c == '\r' || c == '\x0b' || c == '\x0c'

/-- The character set of the Python call `.strip(" _-\t")`. -/
def stripSet (c : Char) : Bool := c == ' ' || c == '_' || c == '-' || c == '\t'

/-- `normalize_segment` from `batch_pdf_to_ppt.py`: underscores to spaces,
whitespace runs collapsed to one space, then both ends stripped of
space/underscore/hyphen/tab. -/
def normalize_segment (text : List Char) : List Char :=
  let cleaned := text.map (fun c => if c == '_' then ' ' else c)
  let collapsed := replaceRuns pyWhitespace ' ' cleaned
  stripEnds stripSet collapsed

def UNTITLED : List Char := "Untitled".toList

/-- Python's `s.split(delim, 1)`: `some (before, after)` splitting at the
first occurrence of `delim`, or `none` when `delim` does not occur. -/
def splitFirst (delim : List Char) : List Char → Option (List Char × List Char)
  | [] => if startsWithL delim [] then some ([], []) else none
  | c :: rest =>
    if startsWithL delim (c :: rest) then some ([], (c :: rest).drop delim.length)
    else
      match splitFirst delim rest with
      | some (a, b) => some (c :: a, b)
      | none => none

/-- `parse_title_author` from `batch_pdf_to_ppt.py`.  The Python code first
tests `DELIMITER not in stem` and then calls `stem.split(DELIMITER, 1)`;
here both are expressed through `splitFirst`, whose `none` case is exactly
the non-containment case. -/
def parse_title_author (stem : List Char) : List Char × Option (List Char) :=
  match splitFirst DELIMITER stem with
  | none =>
    let t := normalize_segment stem
    (if t.isEmpty then UNTITLED else t, none)
  | some (first, remainder) =>
    let t := normalize_segment first
    let title := if t.isEmpty then UNTITLED else t
    if remainder.isEmpty then (title, none)
    else
      let seg :=
        match splitFirst DELIMITER remainder with
        | some (authorSeg, _) => authorSeg
        | none => remainder
      let a := normalize_segment seg
      (title, if a.isEmpty then none else some a)

/-- Index of the first occurrence of `delim` (the least `i` such that
`delim` starts at position `i`), used to state the specification-side
description of the parser. -/
def firstOccur (delim : List Char) : List Char → Option Nat
  | [] => if startsWithL delim [] then some 0 else none
  | c :: rest =>
    if startsWithL delim (c :: rest) then some 0
    else (firstOccur delim rest).map (· + 1)

/-- Specification-side restatement of the parser, written directly from the
spec's words: the segment before the first delimiter occurrence is the
title (normalized, `"Untitled"` fallback); the remainder up to the next
delimiter occurrence (if any) is the author segment; anything after it is
discarded; an empty normalized author yields an absent author. -/
def specParseTitleAuthor (stem : List Char) : List Char × Option (List Char) :=
  match firstOccur DELIMITER stem with
  | none =>
    let t := normalize_segment stem
    (if t.isEmpty then UNTITLED else t, none)
  | some i =>
    let t := normalize_segment (stem.take i)
    let title := if t.isEmpty then UNTITLED else t
    let rest := stem.drop (i + DELIMITER.length)
    let seg :=
      match firstOccur DELIMITER rest with
      | some j => rest.take j
      | none => rest
    let a := normalize_segment seg
    (title, if a.isEmpty then none else some a)

/-! ### Slug generator (`process_pdf.slugify`) -/

/-- The ASCII fragment of Python's regex class `\w`. -/
def isWordChar (c : Char) : Bool := c.isAlphanum || c == '_'

/-- The character class `[^\w\-]` of the first substitution in `slugify`. -/
def slugBad (c : Char) : Bool := !(isWordChar c || c == '-')

def BOOK : List Char := "book".toList

/-- `slugify` from `process_pdf.py`: lowercase, replace each run of
characters outside `[\w\-]` with one hyphen, strip hyphens at both ends,
collapse hyphen runs, fall back to `"book"` when empty. -/
def slugify (value : List Char) : List Char :=
  let lowered := value.map Char.toLower
  let replaced := replaceRuns slugBad '-' lowered
  let stripped := stripEnds (fun c => c == '-') replaced
  let collapsed := replaceRuns (fun c => c == '-') '-' stripped
  if collapsed.isEmpty then BOOK else collapsed

/-- String-typed wrapper around `slugify`. -/
def slugifyS (s : String) : String := (slugify s.toList).asString

/-! ### Data model: manifest book entries (spec section 3) -/

structure BookEntry where
  slug : String := ""
  title : String := ""
  author : Option String := none
  date : String := ""
  tags : List String := []
  description : String := ""
  presentation : Option String := none
  cover : String := ""
deriving DecidableEq

/-- `MAX_PDF_SIZE = 80 * 1024 * 1024` from `batch_pdf_to_ppt.py`. -/
def MAX_PDF_SIZE : Nat := 80 * 1024 * 1024

/-- `DEFAULT_COVER` from `process_pdf.py`. -/
def DEFAULT_COVER : String := "assets/covers/default.svg"

/-- The navigation marker string checked by `has_scroll_nav`. -/
def SCROLL_NAV_MARKER : String := "data-reading-archive-scroll-nav"

/-! ### Slug → entry in-memory mapping (the Python dict `existing`) -/

def dictGet (m : List (String × BookEntry)) (k : String) : Option BookEntry :=
  (m.find? (fun p => p.1 == k)).map (fun p => p.2)

def dictSet (m : List (String × BookEntry)) (k : String) (v : BookEntry) :
    List (String × BookEntry) :=
  if (m.find? (fun p => p.1 == k)).isSome then
    m.map (fun p => if p.1 == k then (k, v) else p)
  else m ++ [(k, v)]

/-! ### Skip decision engine (`batch_pdf_to_ppt.has_scroll_nav` / `should_skip`)

The storage is modelled as a function `fs : String → Option String` giving
the text content of every readable file: `(fs p).isSome` models
`Path(p).exists()`, and a `none` result also models the `OSError` branch
of `has_scroll_nav` (a file that cannot be read).
-/

def isAbsolutePath (p : String) : Bool := p.startsWith "/"

/-- Path resolution in `should_skip`: absolute paths kept, relative ones
resolved against the repository root. -/
def resolvePresPath (root p : String) : String :=
  if isAbsolutePath p then p else root ++ "/" ++ p

/-- `has_scroll_nav` from `batch_pdf_to_ppt.py`: false when the file cannot
be read, otherwise a substring check for the marker. -/
def has_scroll_nav (fs : String → Option String) (path : String) : Bool :=
  match fs path with
  | none => false
  | some text => containsSub SCROLL_NAV_MARKER.toList text.toList

/-- `should_skip` from `batch_pdf_to_ppt.py`. -/
def should_skip (fs : String → Option String) (root : String) (slug : String)
    (existing : List (String × BookEntry)) (force : Bool) : Bool :=
  if force then false
  else
    match dictGet existing slug with
    | none => false
    | some entry =>
      match entry.presentation with
      | none => false
      | some presRel =>
        if presRel == "" then false
        else
          let presPath := resolvePresPath root presRel
          if !(fs presPath).isSome then false
          else has_scroll_nav fs presPath

/-! ### Manifest load (`batch_pdf_to_ppt.load_existing_slugs`)

The JSON file is modelled by its parse outcome: missing file, invalid
JSON, or a parsed JSON value.  The dict comprehension
`{entry.get("slug", ""): entry for entry in records if "slug" in entry}`
is modelled operation by operation, including the Python `TypeError` /
`AttributeError` / unhashable-key exceptions it can raise when a list
element is not an object.
-/

inductive JValue where
  | jnull
  | jbool (b : Bool)
  | jnum (n : Int)
  | jstr (s : String)
  | jarr (elems : List JValue)
  | jobj (fields : List (String × JValue))

inductive PyError where
  | typeError
  | attributeError
  | unhashableType
deriving DecidableEq

/-- Python `"slug" in entry`: key lookup for dicts, substring test for
strings, membership test for lists, `TypeError` for the other JSON
values. -/
def pyInSlug : JValue → Except PyError Bool
  | .jobj fields => .ok (fields.any (fun p => p.1 == "slug"))
  | .jstr s => .ok (containsSub "slug".toList s.toList)
  | .jarr elems =>
    .ok (elems.any (fun v => match v with | .jstr s => s == "slug" | _ => false))
  | _ => .error .typeError

/-- Python `entry.get("slug", "")`: only dicts have `.get`. -/
def pyGetSlug : JValue → Except PyError JValue
  | .jobj fields =>
    .ok (((fields.find? (fun p => p.1 == "slug")).map (fun p => p.2)).getD (.jstr ""))
  | _ => .error .attributeError

/-- JSON values usable as Python dict keys (arrays and objects are
unhashable). -/
def pyHashable : JValue → Bool
  | .jarr _ => false
  | .jobj _ => false
  | _ => true

/-- Python `==` on the hashable JSON values (`True == 1`, `False == 0`). -/
def pyKeyEq : JValue → JValue → Bool
  | .jnull, .jnull => true
  | .jbool a, .jbool b => a == b
  | .jbool a, .jnum n => (if a then (1 : Int) else 0) == n
  | .jnum n, .jbool b => n == (if b then (1 : Int) else 0)
  | .jnum a, .jnum b => a == b
  | .jstr a, .jstr b => a == b
  | _, _ => false

/-- Insertion into a Python dict: overwrite on an equal key, else append. -/
def pyDictSet (m : List (JValue × JValue)) (k v : JValue) : List (JValue × JValue) :=
  if (m.find? (fun p => pyKeyEq p.1 k)).isSome then
    m.map (fun p => if pyKeyEq p.1 k then (p.1, v) else p)
  else m ++ [(k, v)]

/-- The dict comprehension of `load_existing_slugs`, element by element. -/
def buildSlugMap : List JValue → List (JValue × JValue) → Except PyError (List (JValue × JValue))
  | [], acc => .ok acc
  | entry :: rest, acc =>
    match pyInSlug entry with
    | .error e => .error e
    | .ok false => buildSlugMap rest acc
    | .ok true =>
      match pyGetSlug entry with
      | .error e => .error e
      | .ok key =>
        if pyHashable key then buildSlugMap rest (pyDictSet acc key entry)
        else .error .unhashableType

inductive ManifestFileState where
  | missing
  | invalidJson
  | parsed (v : JValue)

/-- `load_existing_slugs` from `batch_pdf_to_ppt.py`. -/
def load_existing_slugs : ManifestFileState → Except PyError (List (JValue × JValue))
  | .missing => .ok []
  | .invalidJson => .ok []
  | .parsed v =>
    match v with
    | .jarr entries => buildSlugMap entries []
    | _ => .ok []

/-- True exactly for JSON arrays. -/
def isJArr : JValue → Bool
  | .jarr _ => true
  | _ => false

/-- A manifest element on which the comprehension cannot raise: a JSON
object whose `"slug"` member (or the `""` default) is hashable. -/
def entrySafe : JValue → Bool
  | .jobj fields =>
    pyHashable (((fields.find? (fun p => p.1 == "slug")).map (fun p => p.2)).getD (.jstr ""))
  | _ => false

/-! ### Manifest upsert (`process_pdf.update_manifest`)

The manifest file content is the list of entries; `update_manifest`
removes every record with the slug of the new entry, appends the entry
and re-sorts descending by `(parsed date, title)`, entries with
unparsable dates sorting as `datetime.date.min` (year 1, month 1,
day 1).  `parseIsoDate` models `datetime.date.fromisoformat` on the
canonical `YYYY-MM-DD` form in which the pipeline writes dates.
-/

def isLeapYear (y : Nat) : Bool := (y % 4 == 0 && y % 100 != 0) || y % 400 == 0

def daysInMonth (y m : Nat) : Nat :=
  if m == 2 then (if isLeapYear y then 29 else 28)
  else if m == 4 || m == 6 || m == 9 || m == 11 then 30
  else 31

def digitVal (c : Char) : Option Nat := if c.isDigit then some (c.toNat - 48) else none

def parseIsoDate (s : String) : Option (Nat × Nat × Nat) :=
  match s.toList with
  | [y1, y2, y3, y4, h1, m1, m2, h2, d1, d2] =>
    if h1 == '-' && h2 == '-' then
      match digitVal y1, digitVal y2, digitVal y3, digitVal y4,
            digitVal m1, digitVal m2, digitVal d1, digitVal d2 with
      | some a, some b, some c, some d, some e, some f, some g, some h =>
        let year := ((a * 10 + b) * 10 + c) * 10 + d
        let month := e * 10 + f
        let day := g * 10 + h
        if 1 ≤ year ∧ 1 ≤ month ∧ month ≤ 12 ∧ 1 ≤ day ∧ day ≤ daysInMonth year month
        then some (year, month, day) else none
      | _, _, _, _, _, _, _, _ => none
    else none
  | _ => none

/-- The Python sort key `(parsed date, title)`, with `date.min` for
unparsable dates. -/
def sortKeyOf (e : BookEntry) : (Nat × Nat × Nat) × String :=
  ((parseIsoDate e.date).getD (1, 1, 1), e.title)

def tripleLt (a b : Nat × Nat × Nat) : Bool :=
  decide (a.1 < b.1) ||
    (a.1 == b.1 &&
      (decide (a.2.1 < b.2.1) || (a.2.1 == b.2.1 && decide (a.2.2 < b.2.2))))

def keyLe (a b : (Nat × Nat × Nat) × String) : Bool :=
  tripleLt a.1 b.1 || (a.1 == b.1 && decide (a.2 ≤ b.2))

/-- The comparison used for `records.sort(key=sort_key, reverse=True)`:
record `a` may come before record `b` when its key is at least `b`'s. -/
def recGe (a b : BookEntry) : Prop := keyLe (sortKeyOf b) (sortKeyOf a) = true

instance : DecidableRel recGe := fun a b =>
  inferInstanceAs (Decidable (keyLe (sortKeyOf b) (sortKeyOf a) = true))

def sortRecords (records : List BookEntry) : List BookEntry :=
  records.insertionSort recGe

/-- `update_manifest` from `process_pdf.py`, as a transformation of the
record list held in `data/books.json`. -/
def update_manifest (records : List BookEntry) (entry : BookEntry) : List BookEntry :=
  let filtered := records.filter (fun r => r.slug != entry.slug)
  sortRecords (filtered ++ [entry])

/-! ### Retry orchestrator (`batch_pdf_to_ppt.run_with_retries`)

The single-item pipeline unit is modelled by its behaviour per attempt:
`unit k` is the outcome of the `k`-th (1-based) invocation of
`run_pipeline`.  The `while attempts <= retries` loop is written as
recursion over the number of loop iterations still allowed
(`remaining = retries + 1 - attempts`); the loop body increments
`attempts`, invokes the unit once, returns on success, and on an error
either breaks (when `attempts > retries`, i.e. `remaining` would hit 0)
or sleeps a literal 1 second and retries.  `sleeps` records the seconds
slept between consecutive attempts, in order. -/

structure RetryOutcome (ε ρ : Type) where
  ok : Bool
  lastError : Option ε
  attempts : Nat
  result : Option ρ
  sleeps : List Nat

def runRetryAux {ε ρ : Type} (unit : Nat → Except ε ρ) :
    Nat → Nat → Option ε → List Nat → RetryOutcome ε ρ
  | 0, attempts, lastError, sleeps => ⟨false, lastError, attempts, none, sleeps⟩
  | remaining + 1, attempts, _lastError, sleeps =>
    let a := attempts + 1
    match unit a with
    | .ok r => ⟨true, none, a, some r, sleeps⟩
    | .error e =>
      if remaining == 0 then ⟨false, some e, a, none, sleeps⟩
      else runRetryAux unit remaining a (some e) (sleeps ++ [1])

/-- `run_with_retries` from `batch_pdf_to_ppt.py` (the pdf path, metadata
and flags are fixed inside `unit`). -/
def run_with_retries {ε ρ : Type} (unit : Nat → Except ε ρ) (retries : Nat) :
    RetryOutcome ε ρ :=
  runRetryAux unit (retries + 1) 0 none []

/-! ### Single-item pipeline (`process_pdf.run_pipeline`)

`run_pipeline` is modelled as a pure function from its arguments and an
environment (what the file system, PDF metadata and AI service would
answer) to an ordered trace of its externally visible effects plus its
outcome.  The bookkeeping keys (`cover_path`, `presentation_path`,
`manifest_path`, `progress`) of the returned dict are not referenced by
any claim and are omitted from the modelled result. -/

inductive PipelineError where
  | fileNotFound
  | missingDependency
deriving DecidableEq

inductive PipeEffect where
  | extractCover (dest : String)
  | geminiCall
  | writePresentation (path : String) (html : String)
  | manifestUpsert (entry : BookEntry)
  | gitAdd (relPaths : List String)
  | gitCommit (message : String)
  | gitPush
deriving DecidableEq

structure PipeArgs where
  title : Option String := none
  author : Option String := none
  date : Option String := none
  tags : List String := []
  description : String := ""
  slug : Option String := none
  dryRun : Bool := false
  commit : Bool := false
  push : Bool := false

structure PipeEnv where
  pdfExists : Bool := true
  depsOk : Bool := true
  metaTitle : Option String := none
  metaAuthor : Option String := none
  stem : String := ""
  today : String := ""
  coverOk : Bool := true
  defaultCoverExists : Bool := true
  geminiHtml : String := ""

/-- Python `a or b` for an optional string `a`: `b` when `a` is `None` or
empty. -/
def pyOrStr (a : Option String) (b : String) : String :=
  match a with
  | some s => if s == "" then b else s
  | none => b

def resolvedTitle (env : PipeEnv) (args : PipeArgs) : String :=
  pyOrStr args.title (pyOrStr env.metaTitle env.stem)

def resolvedAuthor (env : PipeEnv) (args : PipeArgs) : Option String :=
  match args.author with
  | some s => if s == "" then env.metaAuthor else some s
  | none => env.metaAuthor

def resolvedDate (env : PipeEnv) (args : PipeArgs) : String :=
  pyOrStr args.date env.today

def resolvedSlug (env : PipeEnv) (args : PipeArgs) : String :=
  pyOrStr args.slug (slugifyS (resolvedTitle env args))

/-- `[t.strip() for t in (tags or []) if t and t.strip()]`. -/
def tagList (args : PipeArgs) : List String :=
  args.tags.filterMap fun t =>
    if t == "" then none else (if t.trim == "" then none else some t.trim)

def coverDest (env : PipeEnv) (args : PipeArgs) : String :=
  "assets/covers/" ++ resolvedSlug env args ++ ".jpg"

def presentationRelOf (env : PipeEnv) (args : PipeArgs) : String :=
  "presentations/" ++ resolvedSlug env args ++ ".html"

/-- The placeholder document written on `--dry-run` instead of calling the
AI model. -/
def DRY_RUN_HTML : String :=
  "<!DOCTYPE html><html lang='ko'><head><meta charset='utf-8'><title>Dry Run</title></head>" ++
    "<body><p>--dry-run 플래그로 인해 Gemini 호출을 건너뛰었습니다.</p></body></html>"

/-- The manifest entry assembled by `run_pipeline`. -/
def pipelineEntry (env : PipeEnv) (args : PipeArgs) : BookEntry :=
  { slug := resolvedSlug env args
    title := resolvedTitle env args
    author := resolvedAuthor env args
    date := resolvedDate env args
    tags := tagList args
    description := args.description.trim
    presentation := some (presentationRelOf env args)
    cover :=
      if env.coverOk then "assets/covers/" ++ resolvedSlug env args ++ ".jpg"
      else DEFAULT_COVER }

/-- `git_stage_commit_push` from `process_pdf.py`, over the relative paths
of the changed files that exist (`git add` always; `git commit` only with
`do_commit`; `git push` only after a commit). -/
def git_stage_commit_push (relPaths : List String) (message : String)
    (doCommit doPush : Bool) : List PipeEffect :=
  if relPaths.isEmpty then []
  else
    PipeEffect.gitAdd relPaths ::
      (if doCommit then
        PipeEffect.gitCommit message :: (if doPush then [PipeEffect.gitPush] else [])
      else [])

/-- `run_pipeline` from `process_pdf.py`: effect trace and outcome. -/
def run_pipeline (env : PipeEnv) (args : PipeArgs) :
    List PipeEffect × Except PipelineError BookEntry :=
  if !env.pdfExists then ([], .error .fileNotFound)
  else if !env.depsOk then ([], .error .missingDependency)
  else
    let slug := resolvedSlug env args
    let coverRel := if env.coverOk then "assets/covers/" ++ slug ++ ".jpg" else DEFAULT_COVER
    let coverPresent := if env.coverOk then true else env.defaultCoverExists
    let htmlText := if args.dryRun then DRY_RUN_HTML else env.geminiHtml
    let geminiFx : List PipeEffect := if args.dryRun then [] else [PipeEffect.geminiCall]
    let presentationRel := presentationRelOf env args
    let entry : BookEntry := pipelineEntry env args
    let changed := [presentationRel, "data/books.json"] ++
      (if coverPresent then [coverRel] else [])
    let gitFx :=
      if args.commit || args.push then
        git_stage_commit_push changed ("Add book: " ++ resolvedTitle env args)
          args.commit args.push
      else []
    let fx := PipeEffect.extractCover (coverDest env args) ::
      geminiFx ++
        [PipeEffect.writePresentation presentationRel htmlText,
         PipeEffect.manifestUpsert entry] ++ gitFx
    (fx, .ok entry)

/-! ### Batch driver (`batch_pdf_to_ppt.main`)

File discovery (the enumeration cascade) is abstracted into the list of
files the run will iterate, and `run_pipeline` into each file's per-attempt
behaviour `unit`; everything from the per-file loop body onward is
modelled: filename parsing, primary/legacy slug choice, skip decision,
size gate, oversized handling, retry orchestration, manifest
reconciliation and the success/failure aggregation that decides the exit
status. -/

structure PdfFile where
  stem : String
  /-- `stat().st_size`; `none` models the `OSError` branch, which the code
  turns into `size_bytes = 0`. -/
  size : Option Nat
  coverOk : Bool
  unit : Nat → Except String BookEntry

inductive FileOutcome where
  | skipped (slug : String)
  | oversized (entry : BookEntry)
  | succeeded (attempts : Nat) (result : Option BookEntry)
  | failed (attempts : Nat) (error : Option String)
deriving DecidableEq

def isFailedOutcome : FileOutcome → Bool
  | .failed _ _ => true
  | _ => false

def isOversizedOutcome : FileOutcome → Bool
  | .oversized _ => true
  | _ => false

def isSucceededOutcome : FileOutcome → Bool
  | .succeeded _ _ => true
  | _ => false

structure BatchEnv where
  uploadsExists : Bool := true
  files : List PdfFile := []
  existing0 : List (String × BookEntry) := []
  fs : String → Option String := fun _ => none
  root : String := ""
  today : String := ""
  force : Bool := false
  retries : Nat := 2
  dryRun : Bool := false
  commit : Bool := false
  push : Bool := false

/-- String-typed wrapper around the filename parser. -/
def parseTitleAuthorS (stem : String) : String × Option String :=
  let r := parse_title_author stem.toList
  (r.1.asString, r.2.map List.asString)

/-- The primary/legacy slug choice of the per-file loop: reuse the legacy
`slugify(title + " " + author)` slug only when it is already in the
manifest and the primary `slugify(title)` slug is not. -/
def chooseSlug (existing : List (String × BookEntry)) (title : String)
    (author : Option String) : String :=
  let primary := slugifyS title
  match author with
  | none => primary
  | some a =>
    let legacy := slugifyS (title ++ " " ++ a)
    if (dictGet existing legacy).isSome && !(dictGet existing primary).isSome then legacy
    else primary

/-- The path of the placeholder artifact written by
`write_placeholder_presentation`. -/
def write_placeholder_path (slug : String) : String :=
  "presentations/" ++ slug ++ ".html"

/-- `handle_large_pdf` from `batch_pdf_to_ppt.py`: the manifest entry it
writes (empty tags and description, today's date, placeholder
presentation path, extracted or default cover) and the updated in-memory
mapping. -/
def handle_large_pdf (today slug title : String) (author : Option String)
    (coverOk : Bool) (existing : List (String × BookEntry)) :
    BookEntry × List (String × BookEntry) :=
  let presentationRel := "presentations/" ++ slug ++ ".html"
  let coverRel := if coverOk then "assets/covers/" ++ slug ++ ".jpg" else DEFAULT_COVER
  let entry : BookEntry :=
    { slug := slug, title := title, author := author, date := today,
      tags := [], description := "", presentation := some presentationRel,
      cover := coverRel }
  (entry, dictSet existing slug entry)

/-- `persist_entry` from `batch_pdf_to_ppt.py`: updated mapping and the
manifest writes performed (none when the result has no slug). -/
def persist_entry (result : BookEntry) (existing : List (String × BookEntry)) :
    List (String × BookEntry) × List BookEntry :=
  if result.slug == "" then (existing, [])
  else (dictSet existing result.slug result, [result])

/-- Trace of one iteration of the per-file loop of `main`. -/
structure StepTrace where
  outcome : FileOutcome
  existingAfter : List (String × BookEntry)
  /-- Number of invocations of `run_pipeline` for this file. -/
  unitCalls : Nat
  /-- Path of the placeholder artifact, when one was written. -/
  placeholder : Option String
  /-- Entries written to the manifest file during this iteration. -/
  manifestWrites : List BookEntry

/-- One iteration of the per-file loop of `main` (lines deciding skip,
oversized handling or retried pipeline processing). -/
def processFile (env : BatchEnv) (existing : List (String × BookEntry))
    (f : PdfFile) : StepTrace :=
  let parsed := parseTitleAuthorS f.stem
  let title := parsed.1
  let author := parsed.2
  let slug := chooseSlug existing title author
  if should_skip env.fs env.root slug existing env.force then
    ⟨.skipped slug, existing, 0, none, []⟩
  else
    let sizeBytes := f.size.getD 0
    if sizeBytes > MAX_PDF_SIZE then
      let r := handle_large_pdf env.today slug title author f.coverOk existing
      ⟨.oversized r.1, r.2, 0, some (write_placeholder_path slug), [r.1]⟩
    else
      let r := run_with_retries f.unit env.retries
      if r.ok then
        match r.result with
        | some res =>
          let p := persist_entry res existing
          ⟨.succeeded r.attempts (some res), p.1, r.attempts, none, p.2⟩
        | none => ⟨.succeeded r.attempts none, existing, r.attempts, none, []⟩
      else ⟨.failed r.attempts r.lastError, existing, r.attempts, none, []⟩

/-- The whole per-file loop, threading the in-memory mapping. -/
def batchLoop (env : BatchEnv) : List PdfFile → List (String × BookEntry) →
    List FileOutcome
  | [], _ => []
  | f :: rest, existing =>
    let s := processFile env existing f
    s.outcome :: batchLoop env rest s.existingAfter

structure BatchRun where
  exitCode : Nat
  outcomes : List FileOutcome
  /-- Whether the `--push`-without-`--commit` diagnostic was printed. -/
  pushDiag : Bool

/-- `main` from `batch_pdf_to_ppt.py`: exit status 0 when the uploads
directory is missing or no file is to be processed, otherwise 1 exactly
when some file failed after its retries. -/
def batchMain (env : BatchEnv) : BatchRun :=
  let diag := env.push && !env.commit
  if !env.uploadsExists then ⟨0, [], diag⟩
  else if env.files.isEmpty then ⟨0, [], diag⟩
  else
    let outcomes := batchLoop env env.files env.existing0
    let failures := outcomes.filter isFailedOutcome
    ⟨if failures.isEmpty then 0 else 1, outcomes, diag⟩

/-- The error carried by an exception outcome, `none` on success;
models reading Python's `last_error` after a raise. -/
def exceptError {ε ρ : Type} : Except ε ρ → Option ε
  | .ok _ => none
  | .error e => some e

/-! ## Theorems -/

/-! ### Claim C7: the filename parser -/

theorem splitFirst_eq_firstOccur (delim l : List Char) :
    splitFirst delim l =
      (firstOccur delim l).map (fun i => (l.take i, l.drop (i + delim.length))) := by
  induction l with
  | nil =>
    simp only [splitFirst, firstOccur]
    by_cases h : startsWithL delim [] <;> simp [h]
  | cons c rest ih =>
    simp only [splitFirst, firstOccur]
    by_cases h : startsWithL delim (c :: rest)
    · simp [h]
    · simp only [h, if_neg, Bool.false_eq_true, ite_false, ih]
      cases fo : firstOccur delim rest with
      | none => simp
      | some i =>
        simp only [Option.map_some']
        have h1 : i + 1 + delim.length = (i + delim.length) + 1 := by omega
        simp [List.take_succ_cons, h1, List.drop_succ_cons]

theorem firstOccur_nil_delim : firstOccur DELIMITER ([] : List Char) = none := rfl

/-- Claim C7: for every filename stem the parser agrees with the
specification-side description `specParseTitleAuthor` (title = normalized
segment before the first delimiter occurrence with fallback `"Untitled"`,
author = normalized remainder up to the next delimiter occurrence with an
empty segment yielding no author, rest discarded), and on
`"Deep Work -- Cal Newport -- extra"` it yields
`("Deep Work", some "Cal Newport")`. -/
theorem parse_title_author_spec :
    (∀ stem : List Char, parse_title_author stem = specParseTitleAuthor stem) ∧
      parse_title_author "Deep Work -- Cal Newport -- extra".toList =
        ("Deep Work".toList, some "Cal Newport".toList) := by
  constructor
  · intro stem
    unfold parse_title_author specParseTitleAuthor
    rw [splitFirst_eq_firstOccur]
    cases fo : firstOccur DELIMITER stem with
    | none => rfl
    | some i =>
      simp only [Option.map_some']
      cases hrem : stem.drop (i + DELIMITER.length) with
      | nil => simp [firstOccur_nil_delim, normalize_segment, replaceRuns,
          replaceRunsGo, stripEnds]
      | cons d rest =>
        simp only [List.isEmpty_cons, Bool.false_eq_true, if_neg]
        rw [splitFirst_eq_firstOccur]
        cases fo2 : firstOccur DELIMITER (d :: rest) with
        | none => simp
        | some j => simp
  · decide

/-! ### Claim C1: the retry orchestrator -/

theorem runRetryAux_zero {ε ρ : Type} (unit : Nat → Except ε ρ) (attempts : Nat)
    (err : Option ε) (sleeps : List Nat) :
    runRetryAux unit 0 attempts err sleeps = ⟨false, err, attempts, none, sleeps⟩ := rfl

theorem runRetryAux_succ_ok {ε ρ : Type} {unit : Nat → Except ε ρ} {attempts : Nat} {v : ρ}
    (h : unit (attempts + 1) = .ok v) (m : Nat) (err : Option ε) (sleeps : List Nat) :
    runRetryAux unit (m + 1) attempts err sleeps =
      ⟨true, none, attempts + 1, some v, sleeps⟩ := by
  simp only [runRetryAux]
  rw [h]

theorem runRetryAux_one_err {ε ρ : Type} {unit : Nat → Except ε ρ} {attempts : Nat} {e : ε}
    (h : unit (attempts + 1) = .error e) (err : Option ε) (sleeps : List Nat) :
    runRetryAux unit 1 attempts err sleeps = ⟨false, some e, attempts + 1, none, sleeps⟩ := by
  simp only [runRetryAux]
  rw [h]
  rfl

theorem runRetryAux_succ_err {ε ρ : Type} {unit : Nat → Except ε ρ} {attempts : Nat} {e : ε}
    (h : unit (attempts + 1) = .error e) (m : Nat) (hm : m ≠ 0) (err : Option ε)
    (sleeps : List Nat) :
    runRetryAux unit (m + 1) attempts err sleeps =
      runRetryAux unit m (attempts + 1) (some e) (sleeps ++ [1]) := by
  simp only [runRetryAux]
  rw [h]
  simp [hm]

theorem runRetryAux_attempts_le {ε ρ : Type} (unit : Nat → Except ε ρ) :
    ∀ (remaining attempts : Nat) (err : Option ε) (sleeps : List Nat),
      (runRetryAux unit remaining attempts err sleeps).attempts ≤ attempts + remaining := by
  intro remaining
  induction remaining with
  | zero =>
    intro attempts err sleeps
    rw [runRetryAux_zero]
    simp
  | succ m ih =>
    intro attempts err sleeps
    cases h : unit (attempts + 1) with
    | ok v =>
      rw [runRetryAux_succ_ok h]
      show attempts + 1 ≤ attempts + (m + 1)
      omega
    | error e =>
      rcases Nat.eq_zero_or_pos m with hm | hm
      · subst hm
        rw [runRetryAux_one_err h]
      · rw [runRetryAux_succ_err h m (by omega)]
        have := ih (attempts + 1) (some e) (sleeps ++ [1])
        omega

theorem runRetryAux_all_fail {ε ρ : Type} (unit : Nat → Except ε ρ) :
    ∀ (remaining attempts : Nat) (err : Option ε) (sleeps : List Nat),
      1 ≤ remaining →
      (∀ j, attempts < j → j ≤ attempts + remaining → (unit j).isOk = false) →
      runRetryAux unit remaining attempts err sleeps =
        ⟨false, exceptError (unit (attempts + remaining)), attempts + remaining, none,
          sleeps ++ List.replicate (remaining - 1) 1⟩ := by
  intro remaining
  induction remaining with
  | zero => intro _ _ _ h; omega
  | succ m ih =>
    intro attempts err sleeps _ hfail
    have h1 : (unit (attempts + 1)).isOk = false := hfail (attempts + 1) (by omega) (by omega)
    cases h : unit (attempts + 1) with
    | ok v => rw [h] at h1; simp [Except.isOk, Except.toBool] at h1
    | error e =>
      rcases Nat.eq_zero_or_pos m with hm | hm
      · subst hm
        rw [runRetryAux_one_err h]
        simp [h, exceptError]
      · rw [runRetryAux_succ_err h m (by omega),
          ih (attempts + 1) (some e) (sleeps ++ [1]) (by omega)
            (fun j hj1 hj2 => hfail j (by omega) (by omega))]
        have h2 : attempts + 1 + m = attempts + (m + 1) := by omega
        rw [h2]
        obtain ⟨m', hm'⟩ : ∃ m', m = m' + 1 := ⟨m - 1, by omega⟩
        have h3 : sleeps ++ [1] ++ List.replicate (m - 1) 1 =
            sleeps ++ List.replicate (m + 1 - 1) 1 := by
          rw [hm']
          simp [List.replicate_succ, List.append_assoc]
        rw [h3]

theorem runRetryAux_first_success {ε ρ : Type} (unit : Nat → Except ε ρ) :
    ∀ (remaining attempts : Nat) (err : Option ε) (sleeps : List Nat) (k : Nat) (v : ρ),
      1 ≤ k → k ≤ remaining →
      (∀ j, attempts < j → j < attempts + k → (unit j).isOk = false) →
      unit (attempts + k) = .ok v →
      runRetryAux unit remaining attempts err sleeps =
        ⟨true, none, attempts + k, some v, sleeps ++ List.replicate (k - 1) 1⟩ := by
  intro remaining
  induction remaining with
  | zero => intro _ _ _ _ _ hk1 hk2 _ _; omega
  | succ m ih =>
    intro attempts err sleeps k v hk1 hk2 hfail hok
    by_cases hke : k = 1
    · subst hke
      rw [runRetryAux_succ_ok hok]
      simp
    · have hk2' : 2 ≤ k := by omega
      have h1 : (unit (attempts + 1)).isOk = false := hfail (attempts + 1) (by omega) (by omega)
      cases h : unit (attempts + 1) with
      | ok w => rw [h] at h1; simp [Except.isOk, Except.toBool] at h1
      | error e =>
        have hm : m ≠ 0 := by omega
        rw [runRetryAux_succ_err h m hm]
        rw [ih (attempts + 1) (some e) (sleeps ++ [1]) (k - 1) v (by omega) (by omega)
          (fun j hj1 hj2 => hfail j (by omega) (by omega))
          (by rw [show attempts + 1 + (k - 1) = attempts + k by omega]; exact hok)]
        have h2 : attempts + 1 + (k - 1) = attempts + k := by omega
        rw [h2]
        obtain ⟨k', hk'⟩ : ∃ k', k - 1 = k' + 1 := ⟨k - 2, by omega⟩
        have h3 : sleeps ++ [1] ++ List.replicate (k - 1 - 1) 1 =
            sleeps ++ List.replicate (k - 1) 1 := by
          rw [hk']
          simp [List.replicate_succ, List.append_assoc]
        rw [h3]

theorem runRetryAux_sleeps_one {ε ρ : Type} (unit : Nat → Except ε ρ) :
    ∀ (remaining attempts : Nat) (err : Option ε) (sleeps : List Nat),
      (∀ s ∈ sleeps, s = 1) →
      ∀ s ∈ (runRetryAux unit remaining attempts err sleeps).sleeps, s = 1 := by
  intro remaining
  induction remaining with
  | zero => intro attempts err sleeps h; simpa [runRetryAux_zero] using h
  | succ m ih =>
    intro attempts err sleeps h
    cases hu : unit (attempts + 1) with
    | ok v => rw [runRetryAux_succ_ok hu]; simpa using h
    | error e =>
      rcases Nat.eq_zero_or_pos m with hm | hm
      · subst hm; rw [runRetryAux_one_err hu]; simpa using h
      · rw [runRetryAux_succ_err hu m (by omega)]
        refine ih (attempts + 1) (some e) (sleeps ++ [1]) ?_
        intro s hs
        rcases List.mem_append.mp hs with hs | hs
        · exact h s hs
        · simpa using hs

/-- Claim C1: the retry orchestrator performs at most `r + 1` unit
invocations (`attempts` counts exactly one invocation per loop
iteration); when the first successful attempt is the `k`-th
(`1 ≤ k ≤ r + 1`), it returns success with that attempt's result,
attempt count `k` and `k - 1` recorded sleeps; when every attempt up to
`r + 1` raises, it returns failure with the last attempt's error, attempt
count exactly `r + 1` and `r` recorded sleeps; and every recorded sleep
between consecutive attempts is the fixed 1 second. -/
theorem run_with_retries_spec {ε ρ : Type} (unit : Nat → Except ε ρ) (r : Nat) :
    ((run_with_retries unit r).attempts ≤ r + 1) ∧
    (∀ k v, 1 ≤ k → k ≤ r + 1 →
      (∀ j, 1 ≤ j → j < k → (unit j).isOk = false) → unit k = .ok v →
      run_with_retries unit r = ⟨true, none, k, some v, List.replicate (k - 1) 1⟩) ∧
    ((∀ j, 1 ≤ j → j ≤ r + 1 → (unit j).isOk = false) →
      run_with_retries unit r =
        ⟨false, exceptError (unit (r + 1)), r + 1, none, List.replicate r 1⟩) ∧
    (∀ s ∈ (run_with_retries unit r).sleeps, s = 1) := by
  refine ⟨?_, ?_, ?_, ?_⟩
  · simpa using runRetryAux_attempts_le unit (r + 1) 0 none []
  · intro k v hk1 hk2 hfail hok
    have := runRetryAux_first_success unit (r + 1) 0 none [] k v hk1 hk2
      (fun j hj1 hj2 => hfail j (by omega) (by omega)) (by simpa using hok)
    simpa [run_with_retries] using this
  · intro hfail
    have := runRetryAux_all_fail unit (r + 1) 0 none [] (by omega)
      (fun j hj1 hj2 => hfail j (by omega) (by omega))
    simpa [run_with_retries] using this
  · exact runRetryAux_sleeps_one unit (r + 1) 0 none [] (by simp)

/-- Witness for C1: a unit failing twice then succeeding, with `retries =
2`, returns success with attempt count exactly 3 (and two 1-second
sleeps); a unit that always fails, with `retries = 1`, returns failure
with the last error after exactly 2 attempts (one 1-second sleep). -/
theorem run_with_retries_spec_witness :
    (run_with_retries
        (fun k => if k ≤ 2 then (Except.error "e" : Except String Nat) else Except.ok 7) 2 =
      ⟨true, none, 3, some 7, List.replicate 2 1⟩) ∧
    (run_with_retries (fun _ => (Except.error "boom" : Except String Nat)) 1 =
      ⟨false, some "boom", 2, none, List.replicate 1 1⟩) := by
  constructor
  · exact (run_with_retries_spec _ 2).2.1 3 7 (by omega) (by omega)
      (by intro j h1 h2
          have : j = 1 ∨ j = 2 := by omega
          rcases this with h | h <;> subst h <;> rfl)
      (by rfl)
  · exact (run_with_retries_spec _ 1).2.2.1 (fun j _ _ => rfl)

/-! ### Claim C2: the skip decision engine -/

/-- Claim C2: `should_skip` returns `true` exactly when the force flag is
unset, the slug is present in the mapping, its entry has a non-empty
presentation path, the resolved presentation file exists on storage, and
that file's content contains the navigation marker string; in every other
case (force set, slug absent, presentation path absent or unset, file
missing or unreadable, marker absent) it returns `false`. -/
theorem should_skip_iff (fs : String → Option String) (root slug : String)
    (existing : List (String × BookEntry)) (force : Bool) :
    should_skip fs root slug existing force = true ↔
      (force = false ∧ ∃ entry, dictGet existing slug = some entry ∧
        ∃ presRel, entry.presentation = some presRel ∧ presRel ≠ "" ∧
          ∃ text, fs (resolvePresPath root presRel) = some text ∧
            containsSub SCROLL_NAV_MARKER.toList text.toList = true) := by
  unfold should_skip has_scroll_nav
  cases force with
  | true => simp
  | false =>
    cases hget : dictGet existing slug with
    | none => simp
    | some entry =>
      cases hp : entry.presentation with
      | none => simp [hp]
      | some presRel =>
        by_cases hb : presRel = ""
        · subst hb; simp [hp]
        · cases hfs : fs (resolvePresPath root presRel) with
          | none => simp [hp, hfs, hb]
          | some text => simp [hp, hfs, hb]

/-! ### Claim C5: the manifest load -/

/-- Claim C5 counterexample: on the JSON array `[5]` the load raises a
`TypeError` (Python evaluates `"slug" in 5`), so it is not the case that
every JSON array yields a mapping without raising. -/
theorem load_existing_slugs_raises_on_number :
    load_existing_slugs (.parsed (.jarr [.jnum 5])) = .error .typeError := rfl

theorem buildSlugMap_isOk (entries : List JValue) :
    ∀ acc, entries.all entrySafe = true → (buildSlugMap entries acc).isOk = true := by
  induction entries with
  | nil => intro acc _; rfl
  | cons e rest ih =>
    intro acc hall
    rw [List.all_cons, Bool.and_eq_true] at hall
    obtain ⟨he, hrest⟩ := hall
    cases e with
    | jobj fields =>
      simp only [buildSlugMap, pyInSlug, pyGetSlug]
      by_cases hin : fields.any (fun p => p.1 == "slug")
      · have hkey : pyHashable
            (((fields.find? (fun p => p.1 == "slug")).map (fun p => p.2)).getD (.jstr "")) =
              true := he
        simp only [hin, hkey, if_pos]
        exact ih _ hrest
      · simp only [Bool.not_eq_true] at hin
        simp only [hin]
        exact ih _ hrest
    | jnull => simp [entrySafe] at he
    | jbool b => simp [entrySafe] at he
    | jnum n => simp [entrySafe] at he
    | jstr s => simp [entrySafe] at he
    | jarr elems => simp [entrySafe] at he

/-- Claim C5 (amended): a missing manifest file, invalid JSON, and a
non-array JSON value each load as the empty mapping without raising, and
a JSON array loads to a slug-to-entry mapping without raising provided
each element is a JSON object whose `"slug"` member is a hashable JSON
value; an array with other elements can raise (see the counterexample). -/
theorem load_existing_slugs_soft (v : JValue) (entries : List JValue) :
    load_existing_slugs .missing = .ok [] ∧
    load_existing_slugs .invalidJson = .ok [] ∧
    (isJArr v = false → load_existing_slugs (.parsed v) = .ok []) ∧
    (entries.all entrySafe = true →
      (load_existing_slugs (.parsed (.jarr entries))).isOk = true) := by
  refine ⟨rfl, rfl, ?_, ?_⟩
  · intro hv
    cases v <;> first | rfl | simp [isJArr] at hv
  · intro hall
    exact buildSlugMap_isOk entries [] hall

/-- Witness for the amended C5: a non-array JSON value loads as the empty
mapping, and a singleton array holding an object with a string slug loads
without raising. -/
theorem load_existing_slugs_soft_witness :
    (isJArr (.jstr "x") = false ∧ load_existing_slugs (.parsed (.jstr "x")) = .ok []) ∧
    ([JValue.jobj [("slug", .jstr "a")]].all entrySafe = true ∧
      (load_existing_slugs (.parsed (.jarr [.jobj [("slug", .jstr "a")]]))).isOk = true) :=
  ⟨⟨rfl, (load_existing_slugs_soft (.jstr "x") []).2.2.1 rfl⟩,
   ⟨rfl, (load_existing_slugs_soft .jnull [.jobj [("slug", .jstr "a")]]).2.2.2 rfl⟩⟩

/-! ### Claim C8: the manifest upsert -/

theorem update_manifest_perm (records : List BookEntry) (entry : BookEntry) :
    List.Perm (update_manifest records entry)
      (records.filter (fun r => r.slug != entry.slug) ++ [entry]) :=
  List.perm_insertionSort recGe _

/-- Claim C8: after `update_manifest` exactly one record carries the new
entry's slug (the entry itself is present); applying the upsert twice
with the same entry still leaves exactly one record with that slug; and
slug uniqueness of the manifest is preserved by every update. -/
theorem update_manifest_upsert (records : List BookEntry) (entry : BookEntry) :
    ((update_manifest records entry).countP (fun r => r.slug == entry.slug) = 1) ∧
    entry ∈ update_manifest records entry ∧
    ((update_manifest (update_manifest records entry) entry).countP
        (fun r => r.slug == entry.slug) = 1) ∧
    ((records.map (fun r => r.slug)).Nodup →
      ((update_manifest records entry).map (fun r => r.slug)).Nodup) := by
  have key : ∀ rs : List BookEntry,
      (update_manifest rs entry).countP (fun r => r.slug == entry.slug) = 1 := by
    intro rs
    rw [(update_manifest_perm rs entry).countP_eq, List.countP_append]
    have h0 : (rs.filter (fun r => r.slug != entry.slug)).countP
        (fun r => r.slug == entry.slug) = 0 := by
      rw [List.countP_eq_zero]
      intro a ha
      have hne := (List.mem_filter.mp ha).2
      simp only [bne_iff_ne, ne_eq] at hne
      simp [hne]
    rw [h0]
    simp [List.countP_cons]
  refine ⟨key records, ?_, key _, ?_⟩
  · rw [(update_manifest_perm records entry).mem_iff]
    simp
  · intro hnd
    rw [List.Perm.nodup_iff ((update_manifest_perm records entry).map (fun r => r.slug)),
      List.map_append]
    refine List.Nodup.append ?_ (by simp) ?_
    · exact List.Nodup.sublist ((records.filter_sublist).map _) hnd
    · intro a ha hb
      simp only [List.map_cons, List.map_nil, List.mem_singleton] at hb
      rcases List.mem_map.mp ha with ⟨r, hr, hslug⟩
      have hne := (List.mem_filter.mp hr).2
      simp only [bne_iff_ne, ne_eq] at hne
      exact hne (hslug.trans hb)

/-- Witness for C8: a concrete manifest holding two entries, one sharing
the new entry's slug, updated with a fresh entry for that slug. -/
theorem update_manifest_upsert_witness :
    ((update_manifest
        [{ slug := "deep-work", title := "Old" }, { slug := "other", title := "B" }]
        { slug := "deep-work", title := "New", date := "2024-05-01" }).countP
      (fun r => r.slug == "deep-work") = 1) ∧
    ((update_manifest
        [{ slug := "deep-work", title := "Old" }, { slug := "other", title := "B" }]
        { slug := "deep-work", title := "New", date := "2024-05-01" }).map
      (fun r => r.slug)).Nodup :=
  ⟨by exact (update_manifest_upsert
      [{ slug := "deep-work", title := "Old" }, { slug := "other", title := "B" }]
      { slug := "deep-work", title := "New", date := "2024-05-01" }).1,
   by exact (update_manifest_upsert
      [{ slug := "deep-work", title := "Old" }, { slug := "other", title := "B" }]
      { slug := "deep-work", title := "New", date := "2024-05-01" }).2.2.2 (by decide)⟩

/-! ### Claims C6 and C10: the single-item pipeline -/

theorem mem_git_stage_commit_push (relPaths : List String) (message : String)
    (doCommit doPush : Bool) (x : PipeEffect)
    (hx : x ∈ git_stage_commit_push relPaths message doCommit doPush) :
    x = .gitAdd relPaths ∨ (x = .gitCommit message ∧ doCommit = true) ∨
      (x = .gitPush ∧ doCommit = true ∧ doPush = true) := by
  unfold git_stage_commit_push at hx
  by_cases h : relPaths.isEmpty <;> by_cases hc : doCommit <;> by_cases hp : doPush <;>
    simp [h, hc, hp] at hx <;> tauto

/-- Every effect in a pipeline trace has one of the expected shapes; the
AI call appears only in non-dry runs, a commit only with the commit flag,
and a push only with both the commit and the push flag. -/
theorem run_pipeline_trace_shape (env : PipeEnv) (args : PipeArgs) :
    ∀ x ∈ (run_pipeline env args).1,
      (∃ d, x = .extractCover d) ∨ (x = .geminiCall ∧ args.dryRun = false) ∨
      (∃ p h, x = .writePresentation p h) ∨ (∃ e, x = .manifestUpsert e) ∨
      (∃ ps, x = .gitAdd ps) ∨
      (∃ m, x = .gitCommit m ∧ args.commit = true) ∨
      (x = .gitPush ∧ args.commit = true ∧ args.push = true) := by
  intro x hx
  unfold run_pipeline at hx
  by_cases hpdf : env.pdfExists
  · by_cases hdeps : env.depsOk
    · simp only [hpdf, hdeps, Bool.not_true, Bool.false_eq_true, if_false] at hx
      rcases List.mem_append.mp hx with hx1 | h
      · rcases List.mem_append.mp hx1 with hx2 | hx2
        · rcases List.mem_cons.mp hx2 with h | h
          · exact Or.inl ⟨_, h⟩
          · by_cases hdry : args.dryRun
            · simp [hdry] at h
            · simp only [hdry, Bool.false_eq_true, if_false, List.mem_singleton] at h
              exact Or.inr (Or.inl ⟨h, by simpa using hdry⟩)
        · rcases List.mem_cons.mp hx2 with h2 | h2
          · exact Or.inr (Or.inr (Or.inl ⟨_, _, h2⟩))
          · have h3 := List.mem_singleton.mp h2
            exact Or.inr (Or.inr (Or.inr (Or.inl ⟨_, h3⟩)))
      · by_cases hgit : args.commit || args.push
        · simp only [hgit, if_pos] at h
          rcases mem_git_stage_commit_push _ _ _ _ _ h with h2 | h2 | h2
          · exact Or.inr (Or.inr (Or.inr (Or.inr (Or.inl ⟨_, h2⟩))))
          · exact Or.inr (Or.inr (Or.inr (Or.inr (Or.inr (Or.inl ⟨_, h2.1, h2.2⟩)))))
          · exact Or.inr (Or.inr (Or.inr (Or.inr (Or.inr (Or.inr ⟨h2.1, h2.2.1, h2.2.2⟩)))))
        · simp [hgit] at h
    · simp [hpdf, hdeps] at hx
  · simp [hpdf] at hx

/-- Claim C6 counterexample: a pipeline run with `push` set and `commit`
unset still performs a version-control side effect — it stages the
changed files with `git add` — so the condition is not a no-op for
version-control side effects. -/
theorem push_without_commit_stages :
    PipeEffect.gitAdd ["presentations/the-book.html", "data/books.json"] ∈
      (run_pipeline { coverOk := false, defaultCoverExists := false }
        { slug := some "the-book", dryRun := true, push := true }).1 := by
  decide

/-- Claim C6 (amended): with the commit flag unset no `git commit` and no
`git push` is ever performed by the pipeline (though `git add` staging
still happens when the push flag alone is set), and the batch driver
prints the push-without-commit diagnostic, which is not an error. -/
theorem push_without_commit_no_commit_no_push (env : PipeEnv) (args : PipeArgs)
    (benv : BatchEnv) :
    (args.commit = false →
      (∀ m, PipeEffect.gitCommit m ∉ (run_pipeline env args).1) ∧
        PipeEffect.gitPush ∉ (run_pipeline env args).1) ∧
    (benv.push = true → benv.commit = false → (batchMain benv).pushDiag = true) := by
  constructor
  · intro hc
    constructor
    · intro m hmem
      rcases run_pipeline_trace_shape env args _ hmem with h | h | h | h | h | h | h <;>
        simp_all
    · intro hmem
      rcases run_pipeline_trace_shape env args _ hmem with h | h | h | h | h | h | h <;>
        simp_all
  · intro hp hc
    unfold batchMain
    by_cases hu : benv.uploadsExists
    · by_cases hf : benv.files.isEmpty <;> simp [hu, hf, hp, hc]
    · simp [hu, hp, hc]

/-- Witness for the amended C6: concrete pipeline arguments with `push`
set and `commit` unset produce neither a commit nor a push effect, and a
concrete batch environment in the same configuration sets the
diagnostic. -/
theorem push_without_commit_witness :
    ((∀ m, PipeEffect.gitCommit m ∉
        (run_pipeline { coverOk := false, defaultCoverExists := false }
          { slug := some "the-book", dryRun := true, push := true }).1) ∧
      PipeEffect.gitPush ∉
        (run_pipeline { coverOk := false, defaultCoverExists := false }
          { slug := some "the-book", dryRun := true, push := true }).1) ∧
    (batchMain { push := true }).pushDiag = true :=
  ⟨(push_without_commit_no_commit_no_push
      { coverOk := false, defaultCoverExists := false }
      { slug := some "the-book", dryRun := true, push := true } { push := true }).1 rfl,
   (push_without_commit_no_commit_no_push
      { coverOk := false, defaultCoverExists := false }
      { slug := some "the-book", dryRun := true, push := true } { push := true }).2 rfl rfl⟩

/-- Claim C10: a dry run on an existing PDF with dependencies available
never calls the AI model, but still attempts cover extraction, writes the
placeholder presentation to `presentations/<slug>.html`, and upserts the
slug's manifest entry, exactly as a non-dry run does. -/
theorem run_pipeline_dry_run (env : PipeEnv) (args : PipeArgs)
    (hdry : args.dryRun = true) (hpdf : env.pdfExists = true) (hdeps : env.depsOk = true) :
    PipeEffect.geminiCall ∉ (run_pipeline env args).1 ∧
    PipeEffect.extractCover (coverDest env args) ∈ (run_pipeline env args).1 ∧
    PipeEffect.writePresentation (presentationRelOf env args) DRY_RUN_HTML ∈
      (run_pipeline env args).1 ∧
    ∃ e, PipeEffect.manifestUpsert e ∈ (run_pipeline env args).1 ∧
      e.slug = resolvedSlug env args ∧ (run_pipeline env args).2 = .ok e := by
  refine ⟨?_, ?_, ?_, ?_⟩
  · intro hmem
    rcases run_pipeline_trace_shape env args _ hmem with h | h | h | h | h | h | h <;>
      simp_all
  · unfold run_pipeline
    simp only [hpdf, hdeps, Bool.not_true, Bool.false_eq_true, if_false]
    simp
  · unfold run_pipeline
    simp only [hpdf, hdeps, hdry, Bool.not_true, Bool.false_eq_true, if_false, if_true]
    simp
  · refine ⟨pipelineEntry env args, ?_, rfl, ?_⟩
    · unfold run_pipeline
      simp only [hpdf, hdeps, Bool.not_true, Bool.false_eq_true, if_false]
      simp
    · unfold run_pipeline
      simp only [hpdf, hdeps, Bool.not_true, Bool.false_eq_true, if_false]

/-- Witness for C10: a concrete dry run never calls the AI model yet still
extracts the cover, writes the dry-run placeholder presentation and
upserts the manifest entry of the resolved slug. -/
theorem run_pipeline_dry_run_witness :
    PipeEffect.geminiCall ∉
      (run_pipeline { stem := "fallback" } { title := some "My Book", dryRun := true }).1 ∧
    PipeEffect.extractCover
        (coverDest { stem := "fallback" } { title := some "My Book", dryRun := true }) ∈
      (run_pipeline { stem := "fallback" } { title := some "My Book", dryRun := true }).1 ∧
    PipeEffect.writePresentation
        (presentationRelOf { stem := "fallback" } { title := some "My Book", dryRun := true })
        DRY_RUN_HTML ∈
      (run_pipeline { stem := "fallback" } { title := some "My Book", dryRun := true }).1 ∧
    ∃ e, PipeEffect.manifestUpsert e ∈
        (run_pipeline { stem := "fallback" } { title := some "My Book", dryRun := true }).1 ∧
      e.slug = resolvedSlug { stem := "fallback" } { title := some "My Book", dryRun := true } ∧
      (run_pipeline { stem := "fallback" } { title := some "My Book", dryRun := true }).2 =
        .ok e :=
  run_pipeline_dry_run { stem := "fallback" } { title := some "My Book", dryRun := true }
    rfl rfl rfl

/-! ### Claim C3: the oversized-file path of the batch driver -/

/-- Claim C3: for a non-skipped file whose reported size exceeds 80 MiB the
per-file loop never invokes the pipeline or the retry logic
(`unitCalls = 0`), writes the placeholder presentation artifact, writes
exactly one manifest entry with empty tags, empty description and today's
date, records the file as an intentional oversized success and not as a
failure (so it is never retried). -/
theorem processFile_oversized (env : BatchEnv) (existing : List (String × BookEntry))
    (f : PdfFile)
    (hskip : should_skip env.fs env.root
        (chooseSlug existing (parseTitleAuthorS f.stem).1 (parseTitleAuthorS f.stem).2)
        existing env.force = false)
    (hsize : f.size.getD 0 > MAX_PDF_SIZE) :
    (processFile env existing f).unitCalls = 0 ∧
    (processFile env existing f).placeholder =
      some (write_placeholder_path
        (chooseSlug existing (parseTitleAuthorS f.stem).1 (parseTitleAuthorS f.stem).2)) ∧
    (∃ e, (processFile env existing f).outcome = .oversized e ∧
      (processFile env existing f).manifestWrites = [e] ∧
      e.tags = [] ∧ e.description = "" ∧ e.date = env.today) ∧
    isFailedOutcome (processFile env existing f).outcome = false := by
  simp only [processFile]
  rw [hskip]
  simp only [Bool.false_eq_true, if_false]
  rw [if_pos hsize]
  exact ⟨rfl, rfl, ⟨_, rfl, rfl, rfl, rfl, rfl⟩, rfl⟩

/-- Witness for C3: a concrete file one byte over the 80 MiB ceiling, not
skipped, is handled by the oversized path without any pipeline call. -/
theorem processFile_oversized_witness :
    (processFile {} []
        { stem := "Huge -- Author", size := some (MAX_PDF_SIZE + 1), coverOk := true,
          unit := fun _ => Except.error "unused" }).unitCalls = 0 ∧
    (∃ e, (processFile {} []
        { stem := "Huge -- Author", size := some (MAX_PDF_SIZE + 1), coverOk := true,
          unit := fun _ => Except.error "unused" }).outcome = .oversized e ∧
      (processFile {} []
        { stem := "Huge -- Author", size := some (MAX_PDF_SIZE + 1), coverOk := true,
          unit := fun _ => Except.error "unused" }).manifestWrites = [e] ∧
      e.tags = [] ∧ e.description = "" ∧ e.date = ({} : BatchEnv).today) := by
  have h := processFile_oversized {} []
    { stem := "Huge -- Author", size := some (MAX_PDF_SIZE + 1), coverOk := true,
      unit := fun _ => Except.error "unused" } (by decide) (by decide)
  exact ⟨h.1, h.2.2.1⟩

/-! ### Claim C4: the batch exit status -/

/-- Claim C4: the batch terminal status is 0 when the uploads directory is
missing, 0 when no file is to be processed (empty discovery or file
list), 0 when every discovered file ends in success or an intentional
oversized skip, and 1 when at least one file exhausts its retries. -/
theorem batchMain_exit_status (env : BatchEnv) :
    (env.uploadsExists = false → (batchMain env).exitCode = 0) ∧
    (env.files = [] → (batchMain env).exitCode = 0) ∧
    ((∀ o ∈ (batchMain env).outcomes,
        isSucceededOutcome o = true ∨ isOversizedOutcome o = true) →
      (batchMain env).exitCode = 0) ∧
    ((∃ o ∈ (batchMain env).outcomes, isFailedOutcome o = true) →
      (batchMain env).exitCode = 1) := by
  unfold batchMain
  by_cases hu : env.uploadsExists
  · by_cases hf : env.files.isEmpty
    · simp [hu, hf]
    · simp only [hu, hf, Bool.not_true, Bool.false_eq_true, if_false]
      refine ⟨?_, ?_, ?_, ?_⟩
      · intro h
        exact absurd h (by simp [hu])
      · intro h
        rw [h] at hf
        exact absurd rfl hf
      · intro hall
        have hnil : (batchLoop env env.files env.existing0).filter isFailedOutcome = [] := by
          rw [List.filter_eq_nil_iff]
          intro o ho
          rcases hall o ho with h | h <;>
            cases o <;> simp_all [isSucceededOutcome, isOversizedOutcome, isFailedOutcome]
        simp [hnil]
      · rintro ⟨o, ho, hfo⟩
        have hne : (batchLoop env env.files env.existing0).filter isFailedOutcome ≠ [] := by
          intro hnil
          rw [List.filter_eq_nil_iff] at hnil
          exact absurd hfo (by simpa using hnil o ho)
        simp [hne]
  · simp [hu]

/-- Witness for C4: a missing uploads directory exits 0; an empty file set
exits 0; a single oversized file exits 0; a single file that always fails
exits 1. -/
theorem batchMain_exit_status_witness :
    (batchMain { uploadsExists := false }).exitCode = 0 ∧
    (batchMain {}).exitCode = 0 ∧
    (batchMain
        { files :=
            [{ stem := "Huge", size := some (MAX_PDF_SIZE + 1), coverOk := true,
               unit := fun _ => Except.error "unused" }] }).exitCode = 0 ∧
    (batchMain
        { files :=
            [{ stem := "Doomed", size := some 10, coverOk := true,
               unit := fun _ => Except.error "boom" }] }).exitCode = 1 := by
  refine ⟨(batchMain_exit_status _).1 rfl, (batchMain_exit_status _).2.1 rfl, ?_, ?_⟩
  · exact (batchMain_exit_status _).2.2.1 (by decide)
  · exact (batchMain_exit_status _).2.2.2 (by decide)

/-! ### Claim C9: idempotence of the slug generator

The proof characterises the output of `slugify`: every character is a
hyphen or a lower-case word character, the output neither starts nor ends
with a hyphen, and no two hyphens are adjacent (or the output is the
fallback `"book"`); any such string is a fixed point of `slugify`.
-/

theorem replaceRunsGo_nil (p : Char → Bool) (rep : Char) (b : Bool) :
    replaceRunsGo p rep b [] = [] := rfl

theorem replaceRunsGo_pos_true {p : Char → Bool} {a : Char} (hp : p a = true)
    (rep : Char) (rest : List Char) :
    replaceRunsGo p rep true (a :: rest) = replaceRunsGo p rep true rest := by
  simp [replaceRunsGo, hp]

theorem replaceRunsGo_pos_false {p : Char → Bool} {a : Char} (hp : p a = true)
    (rep : Char) (rest : List Char) :
    replaceRunsGo p rep false (a :: rest) = rep :: replaceRunsGo p rep true rest := by
  simp [replaceRunsGo, hp]

theorem replaceRunsGo_neg {p : Char → Bool} {a : Char} (hp : p a = false)
    (rep : Char) (b : Bool) (rest : List Char) :
    replaceRunsGo p rep b (a :: rest) = a :: replaceRunsGo p rep false rest := by
  simp [replaceRunsGo, hp]

theorem mem_replaceRunsGo (p : Char → Bool) (rep : Char) :
    ∀ (l : List Char) (b : Bool) (c : Char), c ∈ replaceRunsGo p rep b l →
      c = rep ∨ (c ∈ l ∧ p c = false) := by
  intro l
  induction l with
  | nil => intro b c h; rw [replaceRunsGo_nil] at h; simp at h
  | cons a rest ih =>
    intro b c h
    by_cases hp : p a
    · cases b with
      | true =>
        rw [replaceRunsGo_pos_true hp] at h
        rcases ih true c h with h1 | ⟨h2, h3⟩
        · exact Or.inl h1
        · exact Or.inr ⟨List.mem_cons_of_mem _ h2, h3⟩
      | false =>
        rw [replaceRunsGo_pos_false hp] at h
        rcases List.mem_cons.mp h with h1 | h1
        · exact Or.inl h1
        · rcases ih true c h1 with h2 | ⟨h2, h3⟩
          · exact Or.inl h2
          · exact Or.inr ⟨List.mem_cons_of_mem _ h2, h3⟩
    · have hp' : p a = false := by simpa using hp
      rw [replaceRunsGo_neg hp'] at h
      rcases List.mem_cons.mp h with h1 | h1
      · subst h1
        exact Or.inr ⟨List.mem_cons_self _ _, hp'⟩
      · rcases ih false c h1 with h2 | ⟨h2, h3⟩
        · exact Or.inl h2
        · exact Or.inr ⟨List.mem_cons_of_mem _ h2, h3⟩

theorem replaceRunsGo_id_of_none (p : Char → Bool) (rep : Char) :
    ∀ l : List Char, (∀ c ∈ l, p c = false) → replaceRunsGo p rep false l = l := by
  intro l
  induction l with
  | nil => intro _; rfl
  | cons a rest ih =>
    intro h
    rw [replaceRunsGo_neg (h a (List.mem_cons_self _ _)),
      ih (fun c hc => h c (List.mem_cons_of_mem _ hc))]

theorem headNonP_cons_of (p : Char → Bool) {a : Char} (h : p a = false)
    (l : List Char) : headNonP p (a :: l) = true := by
  simp [headNonP, h]

theorem noTwoAdjacent_cons (p : Char → Bool) {a : Char} {l : List Char}
    (ha : p a = false) (hl : noTwoAdjacent p l = true) :
    noTwoAdjacent p (a :: l) = true := by
  cases l with
  | nil => rfl
  | cons b t => simp [noTwoAdjacent, ha, hl]

theorem noTwoAdjacent_cons_of_head (p : Char → Bool) (a : Char) {l : List Char}
    (hh : headNonP p l = true) (hl : noTwoAdjacent p l = true) :
    noTwoAdjacent p (a :: l) = true := by
  cases l with
  | nil => rfl
  | cons b t =>
    simp only [headNonP, Bool.not_eq_true'] at hh
    simp [noTwoAdjacent, hh, hl]

theorem noTwoAdjacent_rest (p : Char → Bool) {a : Char} {l : List Char}
    (h : noTwoAdjacent p (a :: l) = true) : noTwoAdjacent p l = true := by
  cases l with
  | nil => rfl
  | cons b t =>
    simp only [noTwoAdjacent, Bool.and_eq_true] at h
    exact h.2

theorem replaceRunsGo_id_of_adj (p : Char → Bool) (rep : Char) :
    ∀ l : List Char, (∀ c ∈ l, p c = true → c = rep) → noTwoAdjacent p l = true →
      replaceRunsGo p rep false l = l ∧
        (headNonP p l = true → replaceRunsGo p rep true l = l) := by
  intro l
  induction l with
  | nil => intro _ _; exact ⟨rfl, fun _ => rfl⟩
  | cons a rest ih =>
    intro hall hadj
    obtain ⟨ihf, iht⟩ := ih (fun c hc => hall c (List.mem_cons_of_mem _ hc))
      (noTwoAdjacent_rest p hadj)
    constructor
    · by_cases hp : p a
      · have hhr : headNonP p rest = true := by
          cases rest with
          | nil => rfl
          | cons b t =>
            simp only [noTwoAdjacent, Bool.and_eq_true, Bool.not_eq_true',
              Bool.and_eq_false_iff] at hadj
            rcases hadj.1 with h1 | h1
            · rw [hp] at h1; simp at h1
            · exact headNonP_cons_of p h1 t
        rw [replaceRunsGo_pos_false hp, iht hhr,
          hall a (List.mem_cons_self _ _) hp]
      · have hp' : p a = false := by simpa using hp
        rw [replaceRunsGo_neg hp', ihf]
    · intro hhead
      simp only [headNonP, Bool.not_eq_true'] at hhead
      rw [replaceRunsGo_neg hhead, ihf]

theorem replaceRunsGo_shape (p : Char → Bool) (rep : Char) :
    ∀ l : List Char,
      headNonP p (replaceRunsGo p rep true l) = true ∧
      noTwoAdjacent p (replaceRunsGo p rep true l) = true ∧
      noTwoAdjacent p (replaceRunsGo p rep false l) = true := by
  intro l
  induction l with
  | nil => exact ⟨rfl, rfl, rfl⟩
  | cons a rest ih =>
    obtain ⟨ih1, ih2, ih3⟩ := ih
    by_cases hp : p a
    · refine ⟨?_, ?_, ?_⟩
      · rw [replaceRunsGo_pos_true hp]; exact ih1
      · rw [replaceRunsGo_pos_true hp]; exact ih2
      · rw [replaceRunsGo_pos_false hp]
        exact noTwoAdjacent_cons_of_head p rep ih1 ih2
    · have hp' : p a = false := by simpa using hp
      refine ⟨?_, ?_, ?_⟩
      · rw [replaceRunsGo_neg hp']; exact headNonP_cons_of p hp' _
      · rw [replaceRunsGo_neg hp']; exact noTwoAdjacent_cons p hp' ih3
      · rw [replaceRunsGo_neg hp']; exact noTwoAdjacent_cons p hp' ih3

theorem replaceRunsGo_headNonP (p : Char → Bool) (rep : Char) (l : List Char)
    (h : headNonP p l = true) :
    headNonP p (replaceRunsGo p rep false l) = true := by
  cases l with
  | nil => rfl
  | cons a rest =>
    simp only [headNonP, Bool.not_eq_true'] at h
    rw [replaceRunsGo_neg h]
    exact headNonP_cons_of p h _

theorem replaceRunsGo_eq_nil (p : Char → Bool) (rep : Char) :
    ∀ (l : List Char) (b : Bool), replaceRunsGo p rep b l = [] →
      ∀ c ∈ l, p c = true := by
  intro l
  induction l with
  | nil => intro b _ c hc; simp at hc
  | cons a rest ih =>
    intro b hnil c hc
    by_cases hp : p a
    · cases b with
      | true =>
        rw [replaceRunsGo_pos_true hp] at hnil
        rcases List.mem_cons.mp hc with h1 | h1
        · rw [h1]; exact hp
        · exact ih true hnil c h1
      | false =>
        rw [replaceRunsGo_pos_false hp] at hnil
        simp at hnil
    · rw [replaceRunsGo_neg (by simpa using hp)] at hnil
      simp at hnil

theorem lastNonP_cons (p : Char → Bool) (a : Char) {l : List Char} (hne : l ≠ []) :
    lastNonP p (a :: l) = lastNonP p l := by
  cases l with
  | nil => exact absurd rfl hne
  | cons b t => rfl

theorem lastNonP_exists (p : Char → Bool) :
    ∀ l : List Char, l ≠ [] → lastNonP p l = true → ∃ c ∈ l, p c = false := by
  intro l
  induction l with
  | nil => intro h _; exact absurd rfl h
  | cons a rest ih =>
    intro _ hl
    cases rest with
    | nil =>
      refine ⟨a, List.mem_cons_self _ _, ?_⟩
      simpa [lastNonP, Bool.not_eq_true'] using hl
    | cons b t =>
      rw [lastNonP_cons p a (by simp)] at hl
      obtain ⟨c, hc, hpc⟩ := ih (by simp) hl
      exact ⟨c, List.mem_cons_of_mem _ hc, hpc⟩

theorem replaceRunsGo_lastNonP (p : Char → Bool) (rep : Char) :
    ∀ l : List Char, lastNonP p l = true →
      lastNonP p (replaceRunsGo p rep false l) = true ∧
        lastNonP p (replaceRunsGo p rep true l) = true := by
  intro l
  induction l with
  | nil => intro _; exact ⟨rfl, rfl⟩
  | cons a rest ih =>
    intro hl
    cases rest with
    | nil =>
      have hp : p a = false := by simpa [lastNonP, Bool.not_eq_true'] using hl
      refine ⟨?_, ?_⟩ <;>
        · rw [replaceRunsGo_neg hp, replaceRunsGo_nil]
          simpa [lastNonP, Bool.not_eq_true'] using hp
    | cons b t =>
      rw [lastNonP_cons p a (by simp)] at hl
      obtain ⟨ihf, iht⟩ := ih hl
      have hne : ∀ b2 : Bool, replaceRunsGo p rep b2 (b :: t) ≠ [] := by
        intro b2 h0
        obtain ⟨c, hc, hpc⟩ := lastNonP_exists p (b :: t) (by simp) hl
        rw [replaceRunsGo_eq_nil p rep (b :: t) b2 h0 c hc] at hpc
        exact absurd hpc (by simp)
      by_cases hp : p a
      · constructor
        · rw [replaceRunsGo_pos_false hp, lastNonP_cons p rep (hne true)]
          exact iht
        · rw [replaceRunsGo_pos_true hp]
          exact iht
      · have hp' : p a = false := by simpa using hp
        constructor <;>
          · rw [replaceRunsGo_neg hp', lastNonP_cons p a (hne false)]
            exact ihf

theorem headNonP_dropWhile (p : Char → Bool) :
    ∀ l : List Char, headNonP p (l.dropWhile p) = true := by
  intro l
  induction l with
  | nil => rfl
  | cons a rest ih =>
    by_cases hp : p a
    · rw [List.dropWhile_cons_of_pos hp]; exact ih
    · have hp' : p a = false := by simpa using hp
      rw [List.dropWhile_cons_of_neg (by simp [hp'])]
      exact headNonP_cons_of p hp' _

theorem dropWhile_id_of_headNonP (p : Char → Bool) {l : List Char}
    (h : headNonP p l = true) : l.dropWhile p = l := by
  cases l with
  | nil => rfl
  | cons a rest =>
    simp only [headNonP, Bool.not_eq_true'] at h
    rw [List.dropWhile_cons_of_neg (by simp [h])]

theorem headNonP_append (p : Char → Bool) {l : List Char} (hne : l ≠ [])
    (l2 : List Char) : headNonP p (l ++ l2) = headNonP p l := by
  cases l with
  | nil => exact absurd rfl hne
  | cons a t => rfl

theorem lastNonP_eq_headNonP_reverse (p : Char → Bool) :
    ∀ l : List Char, lastNonP p l = headNonP p l.reverse := by
  intro l
  induction l with
  | nil => rfl
  | cons a rest ih =>
    cases rest with
    | nil => rfl
    | cons b t =>
      rw [lastNonP_cons p a (by simp), ih]
      conv_rhs => rw [List.reverse_cons]
      rw [headNonP_append p (by simp) [a]]

theorem stripEnds_headNonP (p : Char → Bool) (l : List Char) :
    headNonP p (stripEnds p l) = true := by
  unfold stripEnds
  have hk : headNonP p (l.dropWhile p) = true := headNonP_dropWhile p l
  have hsplit := List.takeWhile_append_dropWhile p (l.dropWhile p).reverse
  by_cases hm : ((l.dropWhile p).reverse.dropWhile p).reverse = []
  · rw [hm]; rfl
  · have hk2 : l.dropWhile p =
        ((l.dropWhile p).reverse.dropWhile p).reverse ++
          ((l.dropWhile p).reverse.takeWhile p).reverse := by
      have h2 := congrArg List.reverse hsplit
      rw [List.reverse_append, List.reverse_reverse] at h2
      exact h2.symm
    rw [hk2, headNonP_append p hm] at hk
    exact hk

theorem stripEnds_lastNonP (p : Char → Bool) (l : List Char) :
    lastNonP p (stripEnds p l) = true := by
  unfold stripEnds
  rw [lastNonP_eq_headNonP_reverse, List.reverse_reverse]
  exact headNonP_dropWhile p _

theorem stripEnds_id (p : Char → Bool) {l : List Char}
    (h1 : headNonP p l = true) (h2 : lastNonP p l = true) : stripEnds p l = l := by
  unfold stripEnds
  rw [dropWhile_id_of_headNonP p h1]
  rw [lastNonP_eq_headNonP_reverse] at h2
  rw [dropWhile_id_of_headNonP p h2, List.reverse_reverse]

theorem mem_stripEnds (p : Char → Bool) {l : List Char} {c : Char}
    (h : c ∈ stripEnds p l) : c ∈ l := by
  unfold stripEnds at h
  rw [List.mem_reverse] at h
  have h2 := (List.dropWhile_sublist _).subset h
  rw [List.mem_reverse] at h2
  exact (List.dropWhile_sublist _).subset h2

theorem riMapId (f : Char → Char) :
    ∀ l : List Char, (∀ c ∈ l, f c = c) → l.map f = l := by
  intro l
  induction l with
  | nil => intro _; rfl
  | cons a rest ih =>
    intro h
    simp only [List.map_cons]
    rw [h a (List.mem_cons_self _ _), ih (fun c hc => h c (List.mem_cons_of_mem _ hc))]

theorem toLower_toLower_ascii : ∀ i : Fin 128,
    Char.toLower (Char.toLower (Char.ofNat i.val)) = Char.toLower (Char.ofNat i.val) := by
  decide

theorem toLower_fixed_of_ascii {c : Char} (h : c.toNat < 128) :
    Char.toLower (Char.toLower c) = Char.toLower c := by
  have h2 := toLower_toLower_ascii ⟨c.toNat, h⟩
  simpa [Char.ofNat_toNat] using h2

/-- Any nonempty string of lower-case-stable word characters and hyphens
with no leading, trailing or doubled hyphen is a fixed point of
`slugify`. -/
theorem slugify_fixed {s : List Char}
    (hchars : ∀ c ∈ s, Char.toLower c = c ∧ slugBad c = false)
    (hhead : headNonP (fun c => c == '-') s = true)
    (hlast : lastNonP (fun c => c == '-') s = true)
    (hadj : noTwoAdjacent (fun c => c == '-') s = true)
    (hne : s ≠ []) :
    slugify s = s := by
  obtain ⟨a, t, rfl⟩ : ∃ a t, s = a :: t := by
    cases s with
    | nil => exact absurd rfl hne
    | cons a t => exact ⟨a, t, rfl⟩
  simp only [slugify, replaceRuns]
  rw [riMapId Char.toLower _ (fun c hc => (hchars c hc).1)]
  rw [replaceRunsGo_id_of_none slugBad '-' _ (fun c hc => (hchars c hc).2)]
  rw [stripEnds_id _ hhead hlast]
  rw [(replaceRunsGo_id_of_adj (fun c => c == '-') '-' _
    (fun c _ hc => by simpa using hc) hadj).1]
  rfl

/-- Claim C9: the slug generator is idempotent on printable-ASCII input:
`slugify (slugify x) = slugify x`. -/
theorem slugify_idempotent (x : List Char)
    (hx : ∀ c ∈ x, 32 ≤ c.toNat ∧ c.toNat ≤ 126) :
    slugify (slugify x) = slugify x := by
  by_cases hc : replaceRuns (fun c => c == '-') '-'
      (stripEnds (fun c => c == '-')
        (replaceRuns slugBad '-' (x.map Char.toLower))) = []
  · have h1 : slugify x = BOOK := by
      unfold slugify
      simp [hc]
    rw [h1]
    decide
  · have h1 : slugify x = replaceRuns (fun c => c == '-') '-'
        (stripEnds (fun c => c == '-')
          (replaceRuns slugBad '-' (x.map Char.toLower))) := by
      unfold slugify
      simp [hc]
    rw [h1]
    apply slugify_fixed
    · intro c hcmem
      rcases mem_replaceRunsGo _ '-' _ false c hcmem with h | ⟨h2, _⟩
      · rw [h]; exact ⟨by decide, by decide⟩
      · rcases mem_replaceRunsGo slugBad '-' _ false c (mem_stripEnds _ h2)
          with h4 | ⟨h5, h6⟩
        · rw [h4]; exact ⟨by decide, by decide⟩
        · rcases List.mem_map.mp h5 with ⟨c0, hc0, hlow⟩
          refine ⟨?_, h6⟩
          rw [← hlow]
          exact toLower_fixed_of_ascii (by have := (hx c0 hc0).2; omega)
    · exact replaceRunsGo_headNonP _ '-' _ (stripEnds_headNonP _ _)
    · exact (replaceRunsGo_lastNonP _ '-' _ (stripEnds_lastNonP _ _)).1
    · exact (replaceRunsGo_shape _ '-' _).2.2
    · exact hc

/-- Witness for C9: idempotence at the printable-ASCII input
`"Hello, World!"`, whose slug is `"hello-world"`. -/
theorem slugify_idempotent_witness :
    slugify (slugify "Hello, World!".toList) = slugify "Hello, World!".toList ∧
      slugify "Hello, World!".toList = "hello-world".toList :=
  ⟨slugify_idempotent "Hello, World!".toList (by decide), by decide⟩

end ReadingArchive
